import Mathlib

/-!
Verification of the `SerialSfnConstruct` CDK construct (`lib` source file):
a shallow embedding of the constructor, `config`, `chainTasks` and
`addChoice`, with the JavaScript array mutation (`shift()` consuming the
input array) made explicit by threading the array state, and JavaScript
`TypeError`s (field access on `undefined`) modelled as an error result.
-/

namespace AwsCdkSfn

/-- Retry configuration descriptor (`ISfnConfig`): the fields read by
`SerialSfnConstruct.config`. -/
structure ISfnConfig where
  retryInterval : Nat
  retryAttempts : Nat
  errors : List String
  deriving Repr, DecidableEq

/-- A plain task descriptor (`ISfnObject`): task name, Lambda function
reference (opaque id), optional retry config. -/
structure SfnObject where
  name : String
  function : Nat
  config : Option ISfnConfig
  deriving Repr, DecidableEq

mutual
/-- One element of a `lambdaFunctions` array: `ISfnObject | ISfnChoice`.
A choice descriptor carries `choiceName`, its `choices` entries and its
`defaultFunctions` array. -/
inductive SfnDesc where
  | obj (o : SfnObject)
  | choice (choiceName : String) (choices : List ChoiceEntry)
      (defaultFunctions : List SfnDesc)
  deriving Repr

/-- One entry of a choice descriptor's `choices` array: a `condition`
(opaque reference) and a `functions` field. -/
inductive ChoiceEntry where
  | mk (condition : String) (functions : FnField)
  deriving Repr

/-- The `functions` field of a choice entry. The code only tests
`'endStates' in choiceObj.functions`: an array has no `endStates`
property, while a CDK chainable state (such as `Pass`) has one. -/
inductive FnField where
  | arr (l : List SfnDesc)
  | chainable (id : Nat)
  deriving Repr
end

/-- The retry object produced by `SerialSfnConstruct.config`. -/
structure RetryProps where
  interval : Nat
  maxAttempts : Nat
  errors : List String
  deriving Repr, DecidableEq

/-- The `config` arrow function of the construct: it maps a descriptor's
retry config to the object passed to `addRetry`, field by field. -/
def mkRetry (c : ISfnConfig) : RetryProps :=
  { interval := c.retryInterval
    maxAttempts := c.retryAttempts
    errors := c.errors }

mutual
/-- A synthesized state of the produced chain: a `LambdaInvoke` task
(name, function, `inputPath`, at most one retry added by `addRetry`)
or a `Choice` state with its `when` branches in insertion order. -/
inductive Node where
  | lambdaInvoke (name : String) (function : Nat)
      (inputPath : Option String) (retry : Option RetryProps)
  | choiceNode (name : String) (branches : List (String × Body))
  deriving Repr

/-- A branch body passed to `Choice.when`: either the chain returned by
`chainTasks`, or the raw `choice.defaultFunctions as Pass` value. -/
inductive Body where
  | chain (nodes : List Node)
  | rawDefault
  deriving Repr
end

/-- A JavaScript `TypeError`: a field access on `undefined` (here, on the
`undefined` returned by `shift()` on an empty array). -/
inductive Err where
  | undefinedAccess
  deriving Repr, DecidableEq

/-- The `LambdaInvoke` built for a plain task descriptor:
`inputPath: first ? undefined : '$.Payload'`, and `addRetry` applied
exactly when the descriptor has a `config`. -/
def emitObj (first : Bool) (o : SfnObject) : Node :=
  .lambdaInvoke o.name o.function
    (if first then none else some "$.Payload")
    (o.config.map mkRetry)

mutual
/-- Fuel-indexed embedding of `chainTasks(lambdaFunctions, first)`.
`none` means the fuel ran out (never happens at fuel `sizeL l`, proved
below). A `some` result is the JavaScript outcome: an uncaught
`TypeError`, or the produced chain together with the final contents of
the (mutated) input array. -/
def chainTasksF : Nat → List SfnDesc → Bool → Option (Except Err (List Node × List SfnDesc))
  | 0, _, _ => none
  | _ + 1, [], _ =>
      -- `shift()` returned `undefined`; `'choices' in sfnObject` is
      -- short-circuited, so `sfnObject.name` is read on `undefined`.
      some (.error .undefinedAccess)
  | fuel + 1, d :: rest, first =>
      match d with
      | .choice cname cs df =>
          match addChoiceF fuel cname cs df first with
          | none => none
          | some (.error e) => some (.error e)
          | some (.ok node) =>
              match rest with
              | [] => some (.ok ([node], []))
              | r :: rs =>
                  match chainTasksF fuel (r :: rs) first with
                  | none => none
                  | some (.error e) => some (.error e)
                  | some (.ok (ch, st)) => some (.ok (node :: ch, st))
      | .obj o =>
          match rest with
          | [] => some (.ok ([emitObj first o], []))
          | r :: rs =>
              match chainTasksF fuel (r :: rs) false with
              | none => none
              | some (.error e) => some (.error e)
              | some (.ok (ch, st)) => some (.ok (emitObj first o :: ch, st))

/-- Fuel-indexed embedding of `addChoice(choice, first)`. -/
def addChoiceF : Nat → String → List ChoiceEntry → List SfnDesc → Bool → Option (Except Err Node)
  | 0, _, _, _, _ => none
  | fuel + 1, cname, cs, df, first =>
      match cs with
      | [] => some (.ok (.choiceNode cname []))
      | c :: cs2 =>
          match goChoicesF fuel (c :: cs2) df first with
          | none => none
          | some (.error e) => some (.error e)
          | some (.ok (bs, _)) => some (.ok (.choiceNode cname bs))

/-- The `for (const choiceObj of choice.choices)` loop of `addChoice`,
threading the state of the shared `choice.defaultFunctions` array
through the successive `chainTasks` calls. Both arms of the ternary use
`choice.defaultFunctions`; `choiceObj.functions` is only shape-tested. -/
def goChoicesF : Nat → List ChoiceEntry → List SfnDesc → Bool → Option (Except Err (List (String × Body) × List SfnDesc))
  | 0, _, _, _ => none
  | _ + 1, [], df, _ => some (.ok ([], df))
  | fuel + 1, .mk cond fns :: es, df, first =>
      match fns with
      | .chainable _ =>
          match goChoicesF fuel es df first with
          | none => none
          | some (.error e) => some (.error e)
          | some (.ok (bs, df2)) => some (.ok ((cond, Body.rawDefault) :: bs, df2))
      | .arr _ =>
          match chainTasksF fuel df first with
          | none => none
          | some (.error e) => some (.error e)
          | some (.ok (ch, df2)) =>
              match goChoicesF fuel es df2 first with
              | none => none
              | some (.error e) => some (.error e)
              | some (.ok (bs, df3)) => some (.ok ((cond, Body.chain ch) :: bs, df3))
end

mutual
/-- Fuel bound for one descriptor. -/
def sizeD : SfnDesc → Nat
  | .obj _ => 0
  | .choice _ cs df => 3 + cs.length + sizeL df

/-- Fuel bound for a descriptor list: enough fuel for `chainTasks` on it. -/
def sizeL : List SfnDesc → Nat
  | [] => 1
  | d :: rest => 1 + sizeD d + sizeL rest
end

/-- `chainTasks` proper, run with sufficient fuel `sizeL l`. -/
def chainTasks (l : List SfnDesc) (first : Bool) : Except Err (List Node × List SfnDesc) :=
  (chainTasksF (sizeL l) l first).getD (.error .undefinedAccess)

/-- The overall error handler descriptor read from `props.errorHandler`. -/
structure ErrorHandler where
  name : String
  function : Nat
  errors : List String
  deriving Repr, DecidableEq

/-- The `SerialSfnProps` fields destructured by the constructor. -/
structure SerialSfnProps where
  lambdaFunctions : List SfnDesc
  errorHandler : Option ErrorHandler
  stateMachineName : String
  deriving Repr

/-- One catch clause attached by `addCatch` to the overall `Parallel`. -/
structure CatchClause where
  handler : Node
  errors : List String
  resultPath : String
  deriving Repr

/-- The resources a completed constructor run creates: the single branch
of the `Parallel` definition, the catches on it, the log group and the
state machine. -/
structure BuiltResources where
  branchChain : List Node
  catches : List CatchClause
  logGroupName : String
  stateMachineName : String
  deriving Repr

/-- Outcome of `new SerialSfnConstruct(scope, id, props)`: the early
return on an empty task list (nothing created, `stateMachine` left
undefined), an uncaught `TypeError` thrown out of `chainTasks`, or a
completed construct. -/
inductive ConstructOutcome where
  | earlyReturn
  | crashed (e : Err)
  | built (r : BuiltResources)
  deriving Repr

/-- Embedding of the `SerialSfnConstruct` constructor body. -/
def serialSfnConstruct (props : SerialSfnProps) : ConstructOutcome :=
  if props.lambdaFunctions.isEmpty then .earlyReturn
  else
    match chainTasks props.lambdaFunctions true with
    | .error e => .crashed e
    | .ok (ch, _) =>
        .built {
          branchChain := ch
          catches :=
            match props.errorHandler with
            | some eh =>
                [{ handler := .lambdaInvoke eh.name eh.function none none
                   errors := eh.errors
                   resultPath := "$.error" }]
            | none => []
          logGroupName := "/aws/vendedlogs/states/" ++ props.stateMachineName
          stateMachineName := props.stateMachineName }

/-- The `stateMachine` field after construction: defined only when the
constructor ran to completion. -/
def stateMachineOf : ConstructOutcome → Option String
  | .built r => some r.stateMachineName
  | _ => none

/-- The log group created by the constructor, when any. -/
def logGroupOf : ConstructOutcome → Option String
  | .built r => some r.logGroupName
  | _ => none

mutual
/-- Well-formed input shape, after the spec: every task list the builder
processes is non-empty — checked on the descriptor's own nested lists. -/
def wfDb : SfnDesc → Bool
  | .obj _ => true
  | .choice _ _ df => wfLb df

/-- Well-formed input shape for a task list: the list is non-empty and
every descriptor in it is well-formed. -/
def wfLb : List SfnDesc → Bool
  | [] => false
  | [d] => wfDb d
  | d :: d2 :: rest => wfDb d && wfLb (d2 :: rest)
end

/-- Top-level identity of a descriptor: whether it is a choice, and its
name. -/
def descTag : SfnDesc → Bool × String
  | .obj o => (false, o.name)
  | .choice cn _ _ => (true, cn)

/-- Top-level identity of a produced state: whether it is a `Choice`,
and its name. -/
def nodeTag : Node → Bool × String
  | .lambdaInvoke n _ _ _ => (false, n)
  | .choiceNode n _ => (true, n)

/-- Is the descriptor a plain task descriptor? -/
def isObjD : SfnDesc → Bool
  | .obj _ => true
  | .choice _ _ _ => false

/-- Value of the `first` flag when the descriptor following the prefix
`pre` is processed, given the flag was `first` at the start of `pre`:
emitting a lambda task resets it, a choice leaves it unchanged. -/
def flagAt (first : Bool) (pre : List SfnDesc) : Bool :=
  first && pre.all (fun d => !isObjD d)

/-- The fuel bound of a list is positive. -/
theorem sizeL_pos (l : List SfnDesc) : 1 ≤ sizeL l := by
  match l with
  | [] => simp [sizeL]
  | d :: rest => simp [sizeL]; omega

/-- On a normal return, `chainTasks` leaves its input array empty. -/
theorem chainTasksF_ok_st : ∀ fuel l first ch st,
    chainTasksF fuel l first = some (.ok (ch, st)) → st = [] := by
  intro fuel
  induction fuel with
  | zero => intro l first ch st h; simp [chainTasksF] at h
  | succ fuel ih =>
    intro l first ch st h
    match l with
    | [] => simp [chainTasksF] at h
    | .obj o :: rest =>
      match rest with
      | [] =>
        simp [chainTasksF] at h
        simp [h.2.symm]
      | r :: rs =>
        rcases hrec : chainTasksF fuel (r :: rs) false with _ | (e | ⟨ch2, st2⟩) <;>
          simp [chainTasksF, hrec] at h
        rw [← h.2]
        exact ih _ _ _ _ hrec
    | .choice cname cs df :: rest =>
      match rest with
      | [] =>
        rcases hac : addChoiceF fuel cname cs df first with _ | (e | node) <;>
          simp [chainTasksF, hac] at h
        simp [h.2.symm]
      | r :: rs =>
        rcases hac : addChoiceF fuel cname cs df first with _ | (e | node) <;>
          simp [chainTasksF, hac] at h
        rcases hrec : chainTasksF fuel (r :: rs) first with _ | (e | ⟨ch2, st2⟩) <;>
          simp [hrec] at h
        rw [← h.2]
        exact ih _ _ _ _ hrec

/-- Fuel sufficiency: with fuel `sizeL l` (respectively the matching
bounds for `addChoice` and the branch loop) the computation always
completes, returning either the produced value or the thrown
`TypeError`. -/
theorem fuel_sufficient : ∀ fuel,
    (∀ l first, sizeL l ≤ fuel → (chainTasksF fuel l first).isSome) ∧
    (∀ cname cs df first, 3 + cs.length + sizeL df ≤ fuel →
      (addChoiceF fuel cname cs df first).isSome) ∧
    (∀ es df first, es.length + 1 + sizeL df ≤ fuel →
      (goChoicesF fuel es df first).isSome) := by
  intro fuel
  induction fuel with
  | zero =>
    refine ⟨?_, ?_, ?_⟩
    · intro l first hle; have := sizeL_pos l; omega
    · intro _ _ _ _ hle; omega
    · intro es df first hle; have := sizeL_pos df; omega
  | succ fuel ih =>
    obtain ⟨ihc, iha, ihg⟩ := ih
    refine ⟨?_, ?_, ?_⟩
    · intro l first hle
      match l with
      | [] => simp [chainTasksF]
      | .obj o :: rest =>
        match rest with
        | [] => simp [chainTasksF]
        | r :: rs =>
          have hrs : sizeL (r :: rs) ≤ fuel := by
            simp [sizeL, sizeD] at hle; simp [sizeL]; omega
          have hsome := ihc (r :: rs) false hrs
          rcases hrec : chainTasksF fuel (r :: rs) false with _ | (e | ⟨ch, st⟩) <;>
            simp [hrec] at hsome ⊢ <;> simp [chainTasksF, hrec]
      | .choice cname cs df :: rest =>
        have hdf : 3 + cs.length + sizeL df ≤ fuel := by
          simp [sizeL, sizeD] at hle; omega
        have hsome := iha cname cs df first hdf
        rcases hac : addChoiceF fuel cname cs df first with _ | (e | node) <;>
          simp [hac] at hsome ⊢
        · simp [chainTasksF, hac]
        · match rest with
          | [] => simp [chainTasksF, hac]
          | r :: rs =>
            have hrs : sizeL (r :: rs) ≤ fuel := by
              simp [sizeL, sizeD] at hle; simp [sizeL]; omega
            have hsome2 := ihc (r :: rs) first hrs
            rcases hrec : chainTasksF fuel (r :: rs) first with _ | (e | ⟨ch, st⟩) <;>
              simp [hrec] at hsome2 ⊢ <;> simp [chainTasksF, hac, hrec]
    · intro cname cs df first hle
      match cs with
      | [] => simp [addChoiceF]
      | c :: cs2 =>
        have hgo : (c :: cs2).length + 1 + sizeL df ≤ fuel := by
          simp at hle ⊢; omega
        have hsome := ihg (c :: cs2) df first hgo
        rcases hg : goChoicesF fuel (c :: cs2) df first with _ | (e | ⟨bs, df2⟩) <;>
          simp [hg] at hsome ⊢ <;> simp [addChoiceF, hg]
    · intro es df first hle
      match es with
      | [] => simp [goChoicesF]
      | .mk cond fns :: es2 =>
        match fns with
        | .chainable i =>
          have hgo : es2.length + 1 + sizeL df ≤ fuel := by
            simp at hle; omega
          have hsome := ihg es2 df first hgo
          rcases hg : goChoicesF fuel es2 df first with _ | (e | ⟨bs, df2⟩) <;>
            simp [hg] at hsome ⊢ <;> simp [goChoicesF, hg]
        | .arr a =>
          have hdf : sizeL df ≤ fuel := by
            simp at hle; omega
          have hsome := ihc df first hdf
          rcases hrec : chainTasksF fuel df first with _ | (e | ⟨ch, st⟩) <;>
            simp [hrec] at hsome ⊢
          · simp [goChoicesF, hrec]
          · have hst : st = [] := chainTasksF_ok_st fuel df first ch st hrec
            subst hst
            have hgo : es2.length + 1 + sizeL ([] : List SfnDesc) ≤ fuel := by
              have := sizeL_pos df
              simp [sizeL] at hle ⊢; omega
            have hsome2 := ihg es2 [] first hgo
            rcases hg : goChoicesF fuel es2 [] first with _ | (e | ⟨bs, df2⟩) <;>
              simp [hg] at hsome2 ⊢ <;> simp [goChoicesF, hrec, hg]

/-- The flag is the incoming one at the start of the spine. -/
theorem flagAt_nil (f : Bool) : flagAt f [] = f := by
  simp [flagAt]

/-- A false flag stays false. -/
theorem flagAt_false (pre : List SfnDesc) : flagAt false pre = false := by
  simp [flagAt]

/-- Unfolding the flag along the spine: processing `d` resets the flag
exactly when `d` is a plain task descriptor. -/
theorem flagAt_cons (f : Bool) (d : SfnDesc) (pre : List SfnDesc) :
    flagAt f (d :: pre) = flagAt (f && !isObjD d) pre := by
  simp [flagAt, Bool.and_assoc]

/-- `addChoice` always returns a `Choice` state carrying the
descriptor's `choiceName`. -/
theorem addChoiceF_ok_shape (fuel : Nat) (cname : String) (cs : List ChoiceEntry)
    (df : List SfnDesc) (first : Bool) (node : Node)
    (h : addChoiceF fuel cname cs df first = some (.ok node)) :
    ∃ bs, node = .choiceNode cname bs := by
  match fuel with
  | 0 => simp [addChoiceF] at h
  | fuel + 1 =>
    match cs with
    | [] =>
      simp [addChoiceF] at h
      exact ⟨[], h.symm⟩
    | c :: cs2 =>
      rcases hg : goChoicesF fuel (c :: cs2) df first with _ | (e | ⟨bs, df2⟩) <;>
        simp [addChoiceF, hg] at h
      exact ⟨bs, h.symm⟩

/-- Spine characterization of `chainTasks`: on a normal return the chain
has exactly one state per descriptor, in input order — a task descriptor
at position `i` yields the `LambdaInvoke` built with the flag value
`flagAt first (l.take i)`, and a choice descriptor yields a `Choice`
state carrying its `choiceName`. -/
theorem chainTasksF_spine : ∀ fuel l first ch st,
    chainTasksF fuel l first = some (.ok (ch, st)) →
    ch.length = l.length ∧
    (∀ (i : Nat) (o : SfnObject), l[i]? = some (SfnDesc.obj o) →
      ch[i]? = some (emitObj (flagAt first (l.take i)) o)) ∧
    (∀ (i : Nat) (cname : String) (cs : List ChoiceEntry) (df : List SfnDesc),
      l[i]? = some (SfnDesc.choice cname cs df) →
      ∃ bs, ch[i]? = some (Node.choiceNode cname bs)) := by
  intro fuel
  induction fuel with
  | zero => intro l first ch st h; simp [chainTasksF] at h
  | succ fuel ih =>
    intro l first ch st h
    match l with
    | [] => simp [chainTasksF] at h
    | .obj o :: rest =>
      match rest with
      | [] =>
        simp [chainTasksF] at h
        obtain ⟨hch, hst⟩ := h
        subst hch
        refine ⟨rfl, ?_, ?_⟩
        · intro i o2 hi
          match i, hi with
          | 0, hi =>
            simp at hi
            simp [hi, flagAt_nil]
          | j + 1, hi => simp at hi
        · intro i cname cs df hi
          match i, hi with
          | 0, hi => simp at hi
          | j + 1, hi => simp at hi
      | r :: rs =>
        rcases hrec : chainTasksF fuel (r :: rs) false with _ | (e | ⟨ch2, st2⟩) <;>
          simp [chainTasksF, hrec] at h
        obtain ⟨hch, hst⟩ := h
        subst hch
        obtain ⟨ihlen, ihobj, ihch⟩ := ih (r :: rs) false ch2 st2 hrec
        refine ⟨by simp [ihlen], ?_, ?_⟩
        · intro i o2 hi
          match i, hi with
          | 0, hi =>
            simp at hi
            simp [hi, flagAt_nil]
          | j + 1, hi =>
            simp at hi
            have := ihobj j o2 hi
            simp [this, List.take_succ_cons, flagAt_cons, isObjD, flagAt_false]
        · intro i cname cs df hi
          match i, hi with
          | 0, hi => simp at hi
          | j + 1, hi =>
            simp at hi
            obtain ⟨bs, hbs⟩ := ihch j cname cs df hi
            exact ⟨bs, by simp [hbs]⟩
    | .choice cname0 cs0 df0 :: rest =>
      match rest with
      | [] =>
        rcases hac : addChoiceF fuel cname0 cs0 df0 first with _ | (e | node) <;>
          simp [chainTasksF, hac] at h
        obtain ⟨hch, hst⟩ := h
        subst hch
        obtain ⟨bs0, hnode⟩ := addChoiceF_ok_shape fuel cname0 cs0 df0 first node hac
        refine ⟨rfl, ?_, ?_⟩
        · intro i o2 hi
          match i, hi with
          | 0, hi => simp at hi
          | j + 1, hi => simp at hi
        · intro i cname cs df hi
          match i, hi with
          | 0, hi =>
            simp at hi
            exact ⟨bs0, by simp [hnode, hi.1]⟩
          | j + 1, hi => simp at hi
      | r :: rs =>
        rcases hac : addChoiceF fuel cname0 cs0 df0 first with _ | (e | node) <;>
          simp [chainTasksF, hac] at h
        rcases hrec : chainTasksF fuel (r :: rs) first with _ | (e | ⟨ch2, st2⟩) <;>
          simp [hrec] at h
        obtain ⟨hch, hst⟩ := h
        subst hch
        obtain ⟨bs0, hnode⟩ := addChoiceF_ok_shape fuel cname0 cs0 df0 first node hac
        obtain ⟨ihlen, ihobj, ihch⟩ := ih (r :: rs) first ch2 st2 hrec
        refine ⟨by simp [ihlen], ?_, ?_⟩
        · intro i o2 hi
          match i, hi with
          | 0, hi => simp at hi
          | j + 1, hi =>
            simp at hi
            have := ihobj j o2 hi
            simp [this, List.take_succ_cons, flagAt_cons, isObjD]
        · intro i cname cs df hi
          match i, hi with
          | 0, hi =>
            simp at hi
            exact ⟨bs0, by simp [hnode, hi.1]⟩
          | j + 1, hi =>
            simp at hi
            obtain ⟨bs, hbs⟩ := ihch j cname cs df hi
            exact ⟨bs, by simp [hbs]⟩

/-- The fuel-free `chainTasks` agrees with the fuelled computation at
fuel `sizeL l`. -/
theorem chainTasks_ok_iff (l : List SfnDesc) (first : Bool) (ch : List Node)
    (st : List SfnDesc) :
    chainTasks l first = .ok (ch, st) ↔
      chainTasksF (sizeL l) l first = some (.ok (ch, st)) := by
  unfold chainTasks
  rcases h : chainTasksF (sizeL l) l first with _ | r
  · have := (fuel_sufficient (sizeL l)).1 l first (le_refl _)
    simp [h] at this
  · simp

/-- C7: chainTasks terminates on every finite input list — with fuel
`sizeL l`, one unit per `shift`, the recursion (including the calls
`addChoice` makes on nested `defaultFunctions` lists) always completes,
so the tree-to-chain translation is a total function of finite inputs. -/
theorem c7_chainTasks_terminates : ∀ (l : List SfnDesc) (first : Bool),
    (chainTasksF (sizeL l) l first).isSome := by
  intro l first
  exact (fuel_sufficient (sizeL l)).1 l first (le_refl _)

/-- C9: chainTasks consumes its input destructively — whenever a call
returns normally (the top-level call, or the call `addChoice` makes on a
choice descriptor's `defaultFunctions`), the caller's array has been
emptied by the repeated `shift()`: the final array state is `[]`. -/
theorem c9_chainTasks_consumes_input (l : List SfnDesc) (first : Bool)
    (ch : List Node) (st : List SfnDesc)
    (h : chainTasks l first = .ok (ch, st)) : st = [] :=
  chainTasksF_ok_st (sizeL l) l first ch st ((chainTasks_ok_iff l first ch st).mp h)

/-- C9 witness: on a concrete two-task list the call returns normally and
the array state afterwards is `[]`. -/
theorem c9_chainTasks_consumes_input_witness :
    chainTasks [SfnDesc.obj ⟨"A", 1, none⟩, SfnDesc.obj ⟨"B", 2, none⟩] true =
      .ok ([Node.lambdaInvoke "A" 1 none none,
            Node.lambdaInvoke "B" 2 (some "$.Payload") none], []) ∧
    ([] : List SfnDesc) = [] :=
  ⟨rfl, c9_chainTasks_consumes_input
    [SfnDesc.obj ⟨"A", 1, none⟩, SfnDesc.obj ⟨"B", 2, none⟩] true
    [Node.lambdaInvoke "A" 1 none none,
     Node.lambdaInvoke "B" 2 (some "$.Payload") none] [] rfl⟩

/-- C1 counterexample: a non-empty descriptor list that `chainTasks` does
not convert into a chain at all — the single choice descriptor has one
array-shaped branch, so `chainTasks` is called on the choice's empty
`defaultFunctions`, `shift()` returns `undefined`, and `.name` is read on
`undefined` (a thrown `TypeError`), so no chain is produced. -/
theorem c1_counterexample :
    chainTasks [SfnDesc.choice "c"
        [ChoiceEntry.mk "cond" (FnField.arr [SfnDesc.obj ⟨"X", 7, none⟩])]
        []] true = .error .undefinedAccess := by
  rfl

/-- C1 (amended): whenever `chainTasks` returns normally, the produced
chain has exactly one state per descriptor of the input list, in exactly
the input order — no descriptor dropped or duplicated; each state carries
the kind and the name of its descriptor. -/
theorem c1_chainTasks_preserves_order (l : List SfnDesc) (first : Bool)
    (ch : List Node) (st : List SfnDesc)
    (h : chainTasks l first = .ok (ch, st)) :
    ch.map nodeTag = l.map descTag := by
  obtain ⟨hlen, hobj, hch⟩ :=
    chainTasksF_spine (sizeL l) l first ch st ((chainTasks_ok_iff l first ch st).mp h)
  apply List.ext_getElem?
  intro i
  rw [List.getElem?_map, List.getElem?_map]
  rcases hd : l[i]? with _ | d
  · have hni : l.length ≤ i := List.getElem?_eq_none_iff.mp hd
    have : ch[i]? = none := List.getElem?_eq_none (by omega)
    simp [this]
  · match d with
    | .obj o =>
      have := hobj i o hd
      simp [this, nodeTag, descTag, emitObj]
    | .choice cname cs df =>
      obtain ⟨bs, hbs⟩ := hch i cname cs df hd
      simp [hbs, nodeTag, descTag]

/-- C1 witness: a concrete task-choice-task list is converted, and the
tags of the chain are those of the input, in order. -/
theorem c1_chainTasks_preserves_order_witness :
    chainTasks [SfnDesc.obj ⟨"A", 1, none⟩, SfnDesc.choice "c" [] [],
        SfnDesc.obj ⟨"B", 2, none⟩] true =
      .ok ([Node.lambdaInvoke "A" 1 none none, Node.choiceNode "c" [],
            Node.lambdaInvoke "B" 2 (some "$.Payload") none], []) ∧
    [Node.lambdaInvoke "A" 1 none none, Node.choiceNode "c" [],
     Node.lambdaInvoke "B" 2 (some "$.Payload") none].map nodeTag =
      [SfnDesc.obj ⟨"A", 1, none⟩, SfnDesc.choice "c" [] [],
       SfnDesc.obj ⟨"B", 2, none⟩].map descTag :=
  ⟨rfl, c1_chainTasks_preserves_order
    [SfnDesc.obj ⟨"A", 1, none⟩, SfnDesc.choice "c" [] [],
     SfnDesc.obj ⟨"B", 2, none⟩] true
    [Node.lambdaInvoke "A" 1 none none, Node.choiceNode "c" [],
     Node.lambdaInvoke "B" 2 (some "$.Payload") none] [] rfl⟩

/-- C2 counterexample: in the list consisting of a choice descriptor
(whose single branch emits Lambda task `A`) followed by task descriptor
`B`, the Lambda task `B` is built after Lambda task `A` has been emitted,
yet `B` is created with `inputPath` undefined — because `first` is reset
only in the Lambda arm of `chainTasks` and the reset inside the choice
branch does not propagate back to the caller. -/
theorem c2_counterexample :
    chainTasks [SfnDesc.choice "c" [ChoiceEntry.mk "cond" (FnField.arr [])]
        [SfnDesc.obj ⟨"A", 1, none⟩],
        SfnDesc.obj ⟨"B", 2, none⟩] true =
      .ok ([Node.choiceNode "c" [("cond", Body.chain [Node.lambdaInvoke "A" 1 none none])],
            Node.lambdaInvoke "B" 2 none none], []) := by
  rfl

/-- C2 (amended): in any `chainTasks` call that returns normally, the
Lambda task built for the descriptor at position `i` has `inputPath`
undefined exactly when the call's `first` flag is still set there —
i.e. `first` was true and no plain task descriptor occurs before `i` in
this call's own list — and `'$.Payload'` otherwise. In particular the
first Lambda task of the chain gets the raw input; Lambda tasks emitted
inside a choice's branches do not reset the flag for later tasks. -/
theorem c2_inputPath_first_semantics (l : List SfnDesc) (first : Bool)
    (ch : List Node) (st : List SfnDesc) (i : Nat) (o : SfnObject)
    (h : chainTasks l first = .ok (ch, st))
    (hi : l[i]? = some (SfnDesc.obj o)) :
    ch[i]? = some (Node.lambdaInvoke o.name o.function
      (if flagAt first (l.take i) then none else some "$.Payload")
      (o.config.map mkRetry)) := by
  obtain ⟨hlen, hobj, hch⟩ :=
    chainTasksF_spine (sizeL l) l first ch st ((chainTasks_ok_iff l first ch st).mp h)
  simpa [emitObj] using hobj i o hi

/-- C2 witness: in a concrete two-task list the second Lambda task is
created with `inputPath` `'$.Payload'`. -/
theorem c2_inputPath_first_semantics_witness :
    chainTasks [SfnDesc.obj ⟨"A", 1, none⟩, SfnDesc.obj ⟨"B", 2, none⟩] true =
      .ok ([Node.lambdaInvoke "A" 1 none none,
            Node.lambdaInvoke "B" 2 (some "$.Payload") none], []) ∧
    [SfnDesc.obj ⟨"A", 1, none⟩, SfnDesc.obj ⟨"B", 2, none⟩][1]? =
      some (SfnDesc.obj ⟨"B", 2, none⟩) ∧
    [Node.lambdaInvoke "A" 1 none none,
     Node.lambdaInvoke "B" 2 (some "$.Payload") none][1]? =
      some (Node.lambdaInvoke "B" 2 (some "$.Payload") none) :=
  ⟨rfl, rfl, c2_inputPath_first_semantics
    [SfnDesc.obj ⟨"A", 1, none⟩, SfnDesc.obj ⟨"B", 2, none⟩] true
    [Node.lambdaInvoke "A" 1 none none,
     Node.lambdaInvoke "B" 2 (some "$.Payload") none] [] 1 ⟨"B", 2, none⟩ rfl rfl⟩

/-- C6: optional retry policy — in any `chainTasks` call that returns
normally, the Lambda task built for a task descriptor carries a retry
exactly when the descriptor has a `config`, and that retry is `mkRetry`
of the config: `interval` is `retryInterval`, `maxAttempts` is
`retryAttempts`, `errors` is `errors`. -/
theorem c6_retry_from_config (l : List SfnDesc) (first : Bool)
    (ch : List Node) (st : List SfnDesc) (i : Nat) (o : SfnObject)
    (h : chainTasks l first = .ok (ch, st))
    (hi : l[i]? = some (SfnDesc.obj o)) :
    ∃ ip, ch[i]? = some (Node.lambdaInvoke o.name o.function ip
      (o.config.map mkRetry)) := by
  obtain ⟨hlen, hobj, hch⟩ :=
    chainTasksF_spine (sizeL l) l first ch st ((chainTasks_ok_iff l first ch st).mp h)
  exact ⟨_, by simpa [emitObj] using hobj i o hi⟩

/-- C6 witness: a task descriptor with a config gets exactly its mapped
retry; one without gets none. -/
theorem c6_retry_from_config_witness :
    chainTasks [SfnDesc.obj ⟨"A", 1, some ⟨5, 3, ["E"]⟩⟩] true =
      .ok ([Node.lambdaInvoke "A" 1 none (some ⟨5, 3, ["E"]⟩)], []) ∧
    [SfnDesc.obj ⟨"A", 1, some ⟨5, 3, ["E"]⟩⟩][0]? =
      some (SfnDesc.obj ⟨"A", 1, some ⟨5, 3, ["E"]⟩⟩) ∧
    ∃ ip, [Node.lambdaInvoke "A" 1 none (some ⟨5, 3, ["E"]⟩)][0]? =
      some (Node.lambdaInvoke "A" 1 ip (some (mkRetry ⟨5, 3, ["E"]⟩))) :=
  ⟨rfl, rfl, c6_retry_from_config
    [SfnDesc.obj ⟨"A", 1, some ⟨5, 3, ["E"]⟩⟩] true
    [Node.lambdaInvoke "A" 1 none (some ⟨5, 3, ["E"]⟩)] [] 0
    ⟨"A", 1, some ⟨5, 3, ["E"]⟩⟩ rfl rfl⟩

/-- C8: synthesis is deterministic — the result of `chainTasks` and of
the whole construct depends only on the input configuration: two runs on
equal inputs produce equal chains and equal construct outcomes. -/
theorem c8_synthesis_deterministic (l1 l2 : List SfnDesc) (f1 f2 : Bool)
    (p1 p2 : SerialSfnProps) (hl : l1 = l2) (hf : f1 = f2) (hp : p1 = p2) :
    chainTasks l1 f1 = chainTasks l2 f2 ∧
    serialSfnConstruct p1 = serialSfnConstruct p2 := by
  subst hl
  subst hf
  subst hp
  exact ⟨rfl, rfl⟩

/-- C8 witness: two runs on equal concrete inputs agree. -/
theorem c8_synthesis_deterministic_witness :
    ([SfnDesc.obj ⟨"A", 1, none⟩] = [SfnDesc.obj ⟨"A", 1, none⟩]) ∧
    chainTasks [SfnDesc.obj ⟨"A", 1, none⟩] true =
      chainTasks [SfnDesc.obj ⟨"A", 1, none⟩] true ∧
    serialSfnConstruct ⟨[SfnDesc.obj ⟨"A", 1, none⟩], none, "sm"⟩ =
      serialSfnConstruct ⟨[SfnDesc.obj ⟨"A", 1, none⟩], none, "sm"⟩ :=
  ⟨rfl,
    (c8_synthesis_deterministic [SfnDesc.obj ⟨"A", 1, none⟩]
      [SfnDesc.obj ⟨"A", 1, none⟩] true true
      ⟨[SfnDesc.obj ⟨"A", 1, none⟩], none, "sm"⟩
      ⟨[SfnDesc.obj ⟨"A", 1, none⟩], none, "sm"⟩ rfl rfl rfl).1,
    (c8_synthesis_deterministic [SfnDesc.obj ⟨"A", 1, none⟩]
      [SfnDesc.obj ⟨"A", 1, none⟩] true true
      ⟨[SfnDesc.obj ⟨"A", 1, none⟩], none, "sm"⟩
      ⟨[SfnDesc.obj ⟨"A", 1, none⟩], none, "sm"⟩ rfl rfl rfl).2⟩

/-- C3: evaluating the code at a choice whose single entry carries its
own function list `[X]` while the choice's `defaultFunctions` is `[Y]`:
the branch body the code builds invokes `Y`, not `X` — both arms of the
ternary in `addChoice` pass `choice.defaultFunctions` to the branch, and
the entry's `functions` is only shape-tested for `endStates`. -/
theorem c3_branch_body_uses_defaultFunctions :
    chainTasks [SfnDesc.choice "c"
        [ChoiceEntry.mk "cond" (FnField.arr [SfnDesc.obj ⟨"X", 7, none⟩])]
        [SfnDesc.obj ⟨"Y", 9, none⟩]] true =
      .ok ([Node.choiceNode "c"
        [("cond", Body.chain [Node.lambdaInvoke "Y" 9 none none])]], []) := by
  rfl

/-- C4: evaluating the code at a well-formed input (every task list
non-empty) whose choice descriptor has two array-shaped branches: the
first branch's `chainTasks` call empties the shared `defaultFunctions`
array, so the second branch's call shifts `undefined` out of the emptied
array and reads `.name` on it — the `undefined` access is reached. -/
theorem c4_two_branch_choice_reaches_undefined :
    wfLb [SfnDesc.choice "c"
        [ChoiceEntry.mk "c1" (FnField.arr [SfnDesc.obj ⟨"X1", 1, none⟩]),
         ChoiceEntry.mk "c2" (FnField.arr [SfnDesc.obj ⟨"X2", 2, none⟩])]
        [SfnDesc.obj ⟨"Y", 9, none⟩]] = true ∧
    chainTasks [SfnDesc.choice "c"
        [ChoiceEntry.mk "c1" (FnField.arr [SfnDesc.obj ⟨"X1", 1, none⟩]),
         ChoiceEntry.mk "c2" (FnField.arr [SfnDesc.obj ⟨"X2", 2, none⟩])]
        [SfnDesc.obj ⟨"Y", 9, none⟩]] true = .error .undefinedAccess :=
  ⟨rfl, rfl⟩

/-- C5: whenever the constructor completes, it attaches exactly one
catch to the overall workflow when `errorHandler` is present — invoking
the handler's function, catching exactly `errorHandler.errors`, with
`resultPath` `'$.error'` so the original input is preserved beside the
error — and no catch when `errorHandler` is absent. -/
theorem c5_overall_error_handler (props : SerialSfnProps) (r : BuiltResources)
    (h : serialSfnConstruct props = .built r) :
    (∀ eh, props.errorHandler = some eh →
      r.catches = [{ handler := Node.lambdaInvoke eh.name eh.function none none
                     errors := eh.errors
                     resultPath := "$.error" }]) ∧
    (props.errorHandler = none → r.catches = []) := by
  unfold serialSfnConstruct at h
  by_cases hemp : props.lambdaFunctions.isEmpty
  · simp [hemp] at h
  · rcases hct : chainTasks props.lambdaFunctions true with e | ⟨ch, st⟩ <;>
      simp [hemp, hct] at h
    constructor
    · intro eh heh
      rw [← h]
      simp [heh]
    · intro heh
      rw [← h]
      simp [heh]

/-- C5 witness: with a concrete error handler present the construct
carries exactly the one catch clause; the hypothesis is discharged by
evaluation. -/
theorem c5_overall_error_handler_witness :
    serialSfnConstruct ⟨[SfnDesc.obj ⟨"A", 1, none⟩],
        some ⟨"EH", 5, ["States.ALL"]⟩, "sm"⟩ =
      .built ⟨[Node.lambdaInvoke "A" 1 none none],
        [⟨Node.lambdaInvoke "EH" 5 none none, ["States.ALL"], "$.error"⟩],
        "/aws/vendedlogs/states/sm", "sm"⟩ ∧
    (⟨[Node.lambdaInvoke "A" 1 none none],
        [⟨Node.lambdaInvoke "EH" 5 none none, ["States.ALL"], "$.error"⟩],
        "/aws/vendedlogs/states/sm", "sm"⟩ : BuiltResources).catches =
      [⟨Node.lambdaInvoke "EH" 5 none none, ["States.ALL"], "$.error"⟩] :=
  ⟨rfl, (c5_overall_error_handler
    ⟨[SfnDesc.obj ⟨"A", 1, none⟩], some ⟨"EH", 5, ["States.ALL"]⟩, "sm"⟩
    ⟨[Node.lambdaInvoke "A" 1 none none],
      [⟨Node.lambdaInvoke "EH" 5 none none, ["States.ALL"], "$.error"⟩],
      "/aws/vendedlogs/states/sm", "sm"⟩ rfl).1 ⟨"EH", 5, ["States.ALL"]⟩ rfl⟩

/-- C10: on an empty task list the constructor returns early: no
Parallel, no log group and no state machine are created, and the
`stateMachine` field (non-optional in its declared type) is left
undefined. -/
theorem c10_empty_list_early_return (props : SerialSfnProps)
    (h : props.lambdaFunctions = []) :
    serialSfnConstruct props = .earlyReturn ∧
    stateMachineOf (serialSfnConstruct props) = none ∧
    logGroupOf (serialSfnConstruct props) = none := by
  have hemp : props.lambdaFunctions.isEmpty := by simp [h]
  simp [serialSfnConstruct, hemp, stateMachineOf, logGroupOf]

/-- C10 witness: the constructor on concrete props with an empty task
list returns early, with no state machine and no log group. -/
theorem c10_empty_list_early_return_witness :
    serialSfnConstruct ⟨[], none, "sm"⟩ = .earlyReturn ∧
    stateMachineOf (serialSfnConstruct ⟨[], none, "sm"⟩) = none ∧
    logGroupOf (serialSfnConstruct ⟨[], none, "sm"⟩) = none :=
  c10_empty_list_early_return ⟨[], none, "sm"⟩ rfl

end AwsCdkSfn
